import Mathlib

/-!
Verification of the document-processing pipeline (tax-id validation,
document classification, field extraction, face-candidate handling and
photo selection) against its natural-language specification.

Python strings are modelled as `List Char`; the small fragment of the
`re` module actually used by the code (single-character classes with
greedy quantifiers, optional characters, anchors and word boundaries)
is embedded as an explicit backtracking matcher with Python's
leftmost/greedy priority order and `findall`'s non-overlapping scan.
Machine integers are `Nat`/`Int`; the two floating-point constants of
the code (`0.5 * min(...)` in face deduplication and the `1.2/1.1`
confidence bonuses) are modelled exactly as rationals.  Total Lean
functions model the code's exception-freedom on the traced paths.
-/

abbrev Str := List Char

/-- Python `str.lower` restricted to the Latin-1 letters that occur in the
source's patterns (ASCII `A`-`Z` and `À`-`Þ` except `×`). -/
def pyLower (c : Char) : Char :=
  if 65 ≤ c.toNat ∧ c.toNat ≤ 90 then Char.ofNat (c.toNat + 32)
  else if 192 ≤ c.toNat ∧ c.toNat ≤ 222 ∧ c.toNat ≠ 215 then Char.ofNat (c.toNat + 32)
  else c

/-- Python `str.upper` on the same Latin-1 range. -/
def pyUpper (c : Char) : Char :=
  if 97 ≤ c.toNat ∧ c.toNat ≤ 122 then Char.ofNat (c.toNat - 32)
  else if 224 ≤ c.toNat ∧ c.toNat ≤ 254 ∧ c.toNat ≠ 247 then Char.ofNat (c.toNat - 32)
  else c

def pyLowerStr (s : Str) : Str := s.map pyLower

/-- The regex class `[0-9]` (and Python's ASCII digits). -/
def charIsDigit (c : Char) : Bool := 48 ≤ c.toNat && c.toNat ≤ 57

/-- Python `\s` (ASCII fragment). -/
def pyIsSpace (c : Char) : Bool :=
  c = ' ' || c = '\t' || c = '\n' || c = '\x0d' || c = '\x0c' || c = '\x0b'

/-- Latin letter (ASCII letters plus the Latin-1 letter block), the
alphabetic fragment relevant to the source's `\w` and name classes. -/
def isLatinLetter (c : Char) : Bool :=
  (65 ≤ c.toNat && c.toNat ≤ 90) || (97 ≤ c.toNat && c.toNat ≤ 122) ||
  (192 ≤ c.toNat && c.toNat ≤ 255 && c.toNat ≠ 215 && c.toNat ≠ 247)

/-- Python `\w` on the Latin-1 fragment. -/
def isWordChar (c : Char) : Bool := isLatinLetter c || charIsDigit c || c = '_'

/-- Source `int(c)` for a digit character (0 for the padding character). -/
def digitVal (c : Char) : Nat := c.toNat - 48

/-- Indexing with Python-style guard context: `s[i]`, null padding outside. -/
def charAtD (s : Str) (i : Nat) : Char := s.getD i (Char.ofNat 0)

/-! ### The `re` fragment used by the source, as an explicit matcher -/

/-- One token of a source pattern: literal (case-sensitive / insensitive),
single-character class, greedy `*`/`+`/`{n}`/`{n,}`/`?` over a class,
and the zero-width `^`, `$` (MULTILINE semantics) and `\b`. -/
inductive Tok where
  | lit : Char → Tok
  | ilit : Char → Tok
  | cls : (Char → Bool) → Tok
  | many0 : (Char → Bool) → Tok
  | many1 : (Char → Bool) → Tok
  | rep : Nat → (Char → Bool) → Tok
  | atLeast : Nat → (Char → Bool) → Tok
  | opt : (Char → Bool) → Tok
  | bol : Tok
  | eol : Tok
  | wb : Tok

def predAt (p : Char → Bool) (s : Str) (i : Nat) : Bool :=
  decide (i < s.length) && p (charAtD s i)

def runLenAux (p : Char → Bool) : Str → Nat
  | [] => 0
  | c :: cs => if p c then runLenAux p cs + 1 else 0

/-- Length of the maximal run of `p`-characters starting at position `i`. -/
def runLen (p : Char → Bool) (s : Str) (i : Nat) : Nat := runLenAux p (s.drop i)

/-- Candidate end positions for one token at position `i`, in Python's
greedy backtracking priority order (longest first). -/
def tokCands : Tok → Str → Nat → List Nat
  | .lit c, s, i => if predAt (fun d => d = c) s i then [i + 1] else []
  | .ilit c, s, i => if predAt (fun d => pyLower d = pyLower c) s i then [i + 1] else []
  | .cls p, s, i => if predAt p s i then [i + 1] else []
  | .many0 p, s, i => (List.range (runLen p s i + 1)).map (fun k => i + runLen p s i - k)
  | .many1 p, s, i => (List.range (runLen p s i)).map (fun k => i + runLen p s i - k)
  | .rep n p, s, i => if n ≤ runLen p s i then [i + n] else []
  | .atLeast n p, s, i =>
      if n ≤ runLen p s i then
        (List.range (runLen p s i + 1 - n)).map (fun k => i + runLen p s i - k)
      else []
  | .opt p, s, i => if predAt p s i then [i + 1, i] else [i]
  | .bol, s, i => if i = 0 || charAtD s (i - 1) = '\n' then [i] else []
  | .eol, s, i => if i = s.length || predAt (fun d => d = '\n') s i then [i] else []
  | .wb, s, i =>
      if (decide (0 < i) && isWordChar (charAtD s (i - 1))) ≠ predAt isWordChar s i
      then [i] else []

/-- All end positions of a token-sequence match starting at `i`,
in backtracking priority order. -/
def matchToks : List Tok → Str → Nat → List Nat
  | [], _, i => [i]
  | t :: ts, s, i => (tokCands t s i).flatMap (fun j => matchToks ts s j)

/-- A source pattern with its single capture group. -/
structure Pat where
  pre : List Tok
  grp : List Tok
  post : List Tok

/-- Highest-priority match of `p` anchored at `i`: group start, group end,
match end. -/
def matchCapAt (p : Pat) (s : Str) (i : Nat) : Option (Nat × Nat × Nat) :=
  ((matchToks p.pre s i).flatMap (fun j =>
    (matchToks p.grp s j).flatMap (fun k =>
      (matchToks p.post s k).map (fun l => (j, k, l))))).head?

/-- Leftmost match at or after `i` (fuelled scan; the fuel `s.length + 1`
always suffices because positions only grow). Returns
(match start, group start, group end, match end). -/
def scanFrom (p : Pat) (s : Str) : Nat → Nat → Option (Nat × Nat × Nat × Nat)
  | 0, _ => none
  | fuel + 1, i =>
    match matchCapAt p s i with
    | some (j, k, l) => some (i, j, k, l)
    | none => if i < s.length then scanFrom p s fuel (i + 1) else none

/-- Python slice `s[a:b]` (for `0 ≤ a ≤ b`, clamped at the ends). -/
def sliceStr (s : Str) (a b : Nat) : Str := (s.take b).drop a

/-- Pattern `re.search(pattern, s).group(1)`. -/
def searchCap (p : Pat) (s : Str) : Option Str :=
  match scanFrom p s (s.length + 1) 0 with
  | some (_, j, k, _) => some (sliceStr s j k)
  | none => none

/-- Pattern `re.findall`'s non-overlapping left-to-right scan collecting the
capture group of every match. -/
def findallAux (p : Pat) (s : Str) : Nat → Nat → List Str
  | 0, _ => []
  | fuel + 1, i =>
    match scanFrom p s (s.length + 1) i with
    | some (st, j, k, l) =>
        sliceStr s j k :: findallAux p s fuel (if l ≤ st then st + 1 else l)
    | none => []

def findallCaps (p : Pat) (s : Str) : List Str := findallAux p s (s.length + 1) 0

/-- Source `len(re.findall(pattern, s))` for a pattern used without a group. -/
def countAll (p : Pat) (s : Str) : Nat := (findallCaps p s).length

/-- Case-insensitive literal word, one token per character. -/
def ilits (w : String) : List Tok := w.toList.map Tok.ilit

/-! ### String helpers used by the extraction code -/

def startsWith : Str → Str → Bool
  | [], _ => true
  | _ :: _, [] => false
  | a :: as, b :: bs => a = b && startsWith as bs

/-- Source `needle in hay` (Python substring containment). -/
def hasSub (hay needle : Str) : Bool :=
  (List.range (hay.length + 1)).any (fun i => startsWith needle (hay.drop i))

/-- Source `hay.find(needle)`: index of the first occurrence. -/
def findSub (hay needle : Str) : Option Nat :=
  (List.range (hay.length + 1)).find? (fun i => startsWith needle (hay.drop i))

/-- Python `str.split()` on whitespace (drops empty fields): the
accumulator carries the current word reversed. -/
def splitWsAux : Str → Str → List Str
  | [], acc => if acc = [] then [] else [acc.reverse]
  | c :: cs, acc =>
    if pyIsSpace c then
      if acc = [] then splitWsAux cs [] else acc.reverse :: splitWsAux cs []
    else splitWsAux cs (c :: acc)

def pySplitWs (s : Str) : List Str := splitWsAux s []

/-- Source `' '.join(s.split())`: collapse internal whitespace, strip both ends. -/
def collapseWs (s : Str) : Str := List.intercalate [' '] (pySplitWs s)

/-- Python `str.strip()`. -/
def pyStrip (s : Str) : Str :=
  ((s.dropWhile pyIsSpace).reverse.dropWhile pyIsSpace).reverse

/-- Python `str.isdigit` (ASCII fragment; false on the empty string). -/
def pyIsDigitStr (s : Str) : Bool := s ≠ [] && s.all charIsDigit

/-- Python `str.title` on the Latin-1 fragment: first letter of each
letter-run uppercased, the rest lowercased. -/
def pyTitleAux : Bool → Str → Str
  | _, [] => []
  | prevAlpha, c :: cs =>
    if isLatinLetter c then
      (if prevAlpha then pyLower c else pyUpper c) :: pyTitleAux true cs
    else
      c :: pyTitleAux false cs

def pyTitle (s : Str) : Str := pyTitleAux false s

/-! ### `CPFValidator` (identical in all variants except `clean_cpf`) -/

/-- Source `CPFValidator.clean_cpf` of the robust/Textract variants:
`re.sub(r'[^0-9]', '', cpf)`. -/
def clean_cpf (s : Str) : Str := s.filter charIsDigit

/-- Source `CPFValidator.clean_cpf` of `bkp/document_processor.py`: strip
non-digits and, above 11 digits, keep the trailing 11 when exactly 14
digits remain, else the leading 11. -/
def clean_cpf_bkp (s : Str) : Str :=
  if 11 < (s.filter charIsDigit).length then
    if (s.filter charIsDigit).length = 14 then
      (s.filter charIsDigit).drop ((s.filter charIsDigit).length - 11)
    else (s.filter charIsDigit).take 11
  else s.filter charIsDigit

/-- The common body of `validate_cpf`, applied to an already-cleaned
string: length-11 check, all-identical check, and the two weighted-sum
check digits compared as characters (`cpf[9] == str(digit1)` etc.). -/
def validate_cpf_body (cpf : Str) : Bool :=
  if cpf.length ≠ 11 then false
  else if cpf = List.replicate 11 (charAtD cpf 0) then false
  else
    let sum1 := (List.range 9).foldl (fun a i => a + digitVal (charAtD cpf i) * (10 - i)) 0
    let digit1 := if 10 ≤ 11 - sum1 % 11 then 0 else 11 - sum1 % 11
    let sum2 := (List.range 10).foldl (fun a i => a + digitVal (charAtD cpf i) * (11 - i)) 0
    let digit2 := if 10 ≤ 11 - sum2 % 11 then 0 else 11 - sum2 % 11
    decide (charAtD cpf 9 = Char.ofNat (48 + digit1)) &&
      decide (charAtD cpf 10 = Char.ofNat (48 + digit2))

/-- Source `CPFValidator.validate_cpf` (robust/Textract variants). -/
def validate_cpf (s : Str) : Bool := validate_cpf_body (clean_cpf s)

/-- Source `CPFValidator.validate_cpf` of `bkp/document_processor.py` (same body,
truncating clean). -/
def validate_cpf_bkp (s : Str) : Bool := validate_cpf_body (clean_cpf_bkp s)

/-- Source `f"{c[:3]}.{c[3:6]}.{c[6:9]}-{c[9:]}"`. -/
def formatCpf (c : Str) : Str :=
  c.take 3 ++ ['.'] ++ (c.drop 3).take 3 ++ ['.'] ++ (c.drop 6).take 3 ++ ['-'] ++ c.drop 9

/-! ### Pattern tables of `DocumentProcessorTextract` -/

/-- Pattern `\s*:?\s*`. -/
def sepTok : List Tok := [.many0 pyIsSpace, .opt (fun c => c = ':'), .many0 pyIsSpace]

/-- Pattern `\d{3}\.?\d{3}\.?\d{3}-?\d{2}`. -/
def grpFmt : List Tok :=
  [.rep 3 charIsDigit, .opt (fun c => c = '.'), .rep 3 charIsDigit,
   .opt (fun c => c = '.'), .rep 3 charIsDigit, .opt (fun c => c = '-'),
   .rep 2 charIsDigit]

/-- Pattern `\d{11}`. -/
def grp11 : List Tok := [.rep 11 charIsDigit]

/-- Source `c\.p\.f` (escaped dots are case-sensitive literals). -/
def cpfDotted : List Tok := [.ilit 'c', .lit '.', .ilit 'p', .lit '.', .ilit 'f']

/-- Source `cadastro\s+de\s+pessoa\s+física`. -/
def cadastroPhrase : List Tok :=
  ilits "cadastro" ++ [.many1 pyIsSpace] ++ ilits "de" ++ [.many1 pyIsSpace] ++
  ilits "pessoa" ++ [.many1 pyIsSpace] ++ ilits "física"

/-- Pattern `\d{3}[\.\s]?\d{3}[\.\s]?\d{3}[\-\s]?\d{2}`. -/
def grpFlex : List Tok :=
  [.rep 3 charIsDigit, .opt (fun c => c = '.' || pyIsSpace c), .rep 3 charIsDigit,
   .opt (fun c => c = '.' || pyIsSpace c), .rep 3 charIsDigit,
   .opt (fun c => c = '-' || pyIsSpace c), .rep 2 charIsDigit]

/-- Source `info_patterns['cpf']`: the ten label-anchored patterns, in source order. -/
def cpfLabelPats : List Pat :=
  [⟨ilits "cpf" ++ sepTok, grpFmt, []⟩,
   ⟨ilits "cpf" ++ sepTok, grp11, []⟩,
   ⟨ilits "cpf" ++ [.many1 pyIsSpace], grpFmt, []⟩,
   ⟨ilits "cpf" ++ [.many1 pyIsSpace], grp11, []⟩,
   ⟨cpfDotted ++ sepTok, grpFmt, []⟩,
   ⟨cpfDotted ++ sepTok, grp11, []⟩,
   ⟨cadastroPhrase ++ sepTok, grpFmt, []⟩,
   ⟨cadastroPhrase ++ sepTok, grp11, []⟩,
   ⟨ilits "cpf" ++ [.many0 pyIsSpace, .opt (fun c => c = ':' || c = '-'), .many0 pyIsSpace],
    grpFlex, []⟩,
   ⟨cpfDotted ++ [.many0 pyIsSpace, .opt (fun c => c = ':' || c = '-'), .many0 pyIsSpace],
    grpFlex, []⟩]

/-- Source `cpf_direct_patterns`, in source order. -/
def cpfDirectPats : List Pat :=
  [⟨ilits "cpf" ++ [.many1 pyIsSpace], grpFmt, []⟩,
   ⟨ilits "cpf" ++ [.many1 pyIsSpace], grp11, []⟩,
   ⟨ilits "cpf" ++ [.many0 pyIsSpace], grpFmt, []⟩,
   ⟨ilits "cpf" ++ [.many0 pyIsSpace], grp11, []⟩,
   ⟨ilits "cpf" ++ [.many0 pyIsSpace, .lit '\n', .many0 pyIsSpace], grpFmt, []⟩,
   ⟨ilits "cpf" ++ [.many0 pyIsSpace, .lit '\n', .many0 pyIsSpace], grp11, []⟩]

/-- Source `generic_patterns`: `\b(\d{3}\.?\d{3}\.?\d{3}-?\d{2})\b` and `\b(\d{11})\b`. -/
def cpfGenericPats : List Pat := [⟨[.wb], grpFmt, [.wb]⟩, ⟨[.wb], grp11, [.wb]⟩]

/-- Source `info_patterns['nis_pis_pasep']`, in source order. -/
def nisPats : List Pat :=
  [⟨ilits "nis" ++ sepTok, grp11, []⟩,
   ⟨ilits "pis" ++ sepTok, grp11, []⟩,
   ⟨ilits "pasep" ++ sepTok, grp11, []⟩,
   ⟨ilits "nis/pis/pasep" ++ sepTok, grp11, []⟩,
   ⟨ilits "pis/pasep" ++ sepTok, grp11, []⟩]

/-- The class `[A-ZÁÀÂÃÉÊÍÓÔÕÚÇ]`. -/
def upperNameChar (c : Char) : Bool :=
  (65 ≤ c.toNat && c.toNat ≤ 90) ||
  "ÁÀÂÃÉÊÍÓÔÕÚÇ".toList.contains c

/-- The class `[A-Za-záàâãéêíóôõúç\s]`. -/
def nameTailChar (c : Char) : Bool :=
  (65 ≤ c.toNat && c.toNat ≤ 90) || (97 ≤ c.toNat && c.toNat ≤ 122) ||
  "áàâãéêíóôõúç".toList.contains c || pyIsSpace c

/-- Pattern `re.IGNORECASE` lifting of a character class. -/
def ci (p : Char → Bool) (c : Char) : Bool := p c || p (pyLower c) || p (pyUpper c)

/-- Source `info_patterns['nome']`, in source order (searched with
IGNORECASE | MULTILINE). -/
def nomePats : List Pat :=
  [⟨ilits "nome" ++ sepTok, [.cls (ci upperNameChar), .many1 (ci nameTailChar)], []⟩,
   ⟨ilits "name" ++ sepTok, [.cls (ci upperNameChar), .many1 (ci nameTailChar)], []⟩,
   ⟨ilits "titular" ++ sepTok, [.cls (ci upperNameChar), .many1 (ci nameTailChar)], []⟩,
   ⟨[.bol], [.cls (ci upperNameChar), .atLeast 10 (ci nameTailChar)], [.eol]⟩]

/-- Pattern `\d+\.?\d*\.?\d*-?\d*`. -/
def rgGrp : List Tok :=
  [.many1 charIsDigit, .opt (fun c => c = '.'), .many0 charIsDigit,
   .opt (fun c => c = '.'), .many0 charIsDigit, .opt (fun c => c = '-'),
   .many0 charIsDigit]

/-- Source `info_patterns['rg']`, in source order. -/
def rgPats : List Pat :=
  [⟨ilits "rg" ++ sepTok, rgGrp, []⟩,
   ⟨ilits "registro" ++ sepTok, rgGrp, []⟩,
   ⟨ilits "identidade" ++ sepTok, rgGrp, []⟩]

/-! ### `extract_information_from_text` (Textract processor) -/

/-- Step 1 of the extractor: collect every group captured by a
NIS/PIS/PASEP-labelled pattern (the exclusion set). -/
def nisNumbers (text : Str) : List Str :=
  nisPats.flatMap (fun p => findallCaps p text)

/-- The shared acceptance filter of the two label-anchored passes:
clean, require 11 digits, require absence from the exclusion set,
require checksum validity. -/
def acceptClean (nis : List Str) (m : Str) : Option Str :=
  if (clean_cpf m).length = 11 && !(nis.contains (clean_cpf m)) &&
      validate_cpf (clean_cpf m) then
    some (clean_cpf m)
  else none

def pass1Cands (text : Str) (nis : List Str) : List Str :=
  (cpfLabelPats.flatMap (fun p => findallCaps p text)).filterMap (acceptClean nis)

def directCands (text : Str) (nis : List Str) : List Str :=
  (cpfDirectPats.flatMap (fun p => findallCaps p text)).filterMap (acceptClean nis)

def cpfIndicators : List Str :=
  ["cpf", "c.p.f", "cadastro", "pessoa", "física"].map String.toList

def nisIndicators : List Str := ["nis", "pis", "pasep"].map String.toList

/-- Source `context_before + context_after`: the lowered 50-character windows
around the first occurrence of the matched string. -/
def ctxWindow (text m : Str) (pos : Nat) : Str :=
  pyLowerStr (sliceStr text (pos - 50) pos) ++
  pyLowerStr (sliceStr text pos (pos + m.length + 50))

def hasCpfCtx (text m : Str) : Bool :=
  match findSub text m with
  | some pos => cpfIndicators.any (fun ind => hasSub (ctxWindow text m pos) ind)
  | none => false

def hasNisCtx (text m : Str) : Bool :=
  match findSub text m with
  | some pos => nisIndicators.any (fun ind => hasSub (ctxWindow text m pos) ind)
  | none => false

/-- One iteration of the fallback (unanchored) pass over a raw match `m`,
with the candidate list accumulated so far (`hasCpfCtx`/`hasNisCtx`
recompute the code's single `text.find` position). -/
def fallbackStep (text : Str) (nis : List Str) (acc : List Str) (m : Str) : List Str :=
  if (clean_cpf m).length = 11 then
    if !(nis.contains (clean_cpf m)) then
      if validate_cpf (clean_cpf m) then
        match findSub text m with
        | some _ =>
          if hasCpfCtx text m && !(hasNisCtx text m) then acc ++ [clean_cpf m]
          else if !(hasNisCtx text m) && acc = [] then acc ++ [clean_cpf m]
          else acc
        | none => acc
      else acc
    else acc
  else acc

/-- The raw matches scanned by the fallback pass, in source order. -/
def genericMatches (text : Str) : List Str :=
  cpfGenericPats.flatMap (fun p => findallCaps p text)

def fallbackCands (text : Str) (nis : List Str) : List Str :=
  (genericMatches text).foldl (fallbackStep text nis) []

/-- The full CPF candidate list of `extract_information_from_text`
(label-anchored pass, then the direct pass, then the fallback pass, each
tried only when the previous produced nothing). -/
def cpfCandidates (text : Str) : List Str :=
  if pass1Cands text (nisNumbers text) ≠ [] then pass1Cands text (nisNumbers text)
  else if directCands text (nisNumbers text) ≠ [] then directCands text (nisNumbers text)
  else fallbackCands text (nisNumbers text)

/-- Source `info['cpf']`: the first candidate, formatted, or empty. -/
def extract_cpf_from_text (text : Str) : Str :=
  match cpfCandidates text with
  | c :: _ => formatCpf c
  | [] => []

/-- The class kept by `re.sub(r'[^A-Za-záàâãéêíóôõúç\s]', '', nome)`. -/
def nameKeepChar (c : Char) : Bool :=
  (65 ≤ c.toNat && c.toNat ≤ 90) || (97 ≤ c.toNat && c.toNat ≤ 122) ||
  "áàâãéêíóôõúç".toList.contains c || pyIsSpace c

/-- Source `match.group(1).strip()`, cleaned and whitespace-collapsed. -/
def nomeClean (raw : Str) : Str :=
  collapseWs ((pyStrip raw).filter nameKeepChar)

/-- The acceptance filter of the name loop: length `> 5` and not
`str.isdigit`; on success the title-cased value. -/
def tryAcceptNome (raw : Str) : Option Str :=
  if 5 < (nomeClean raw).length && !(pyIsDigitStr (nomeClean raw)) then
    some (pyTitle (nomeClean raw))
  else none

/-- Source `info['nome']`: first pattern whose search yields an accepted capture. -/
def extract_nome_from_text (text : Str) : Str :=
  match nomePats.findSome? (fun p => (searchCap p text).bind tryAcceptNome) with
  | some v => v
  | none => []

/-- Source `info['rg']`: first pattern with any match, stripped. -/
def extract_rg_from_text (text : Str) : Str :=
  match rgPats.findSome? (fun p => searchCap p text) with
  | some v => pyStrip v
  | none => []

structure InfoRec where
  nome : Str
  cpf : Str
  rg : Str
deriving DecidableEq

def extract_information_from_text (text : Str) : InfoRec :=
  ⟨extract_nome_from_text text, extract_cpf_from_text text, extract_rg_from_text text⟩

/-! ### `identify_document_type` (robust processor) -/

def mkP (toks : List Tok) : Pat := ⟨[], toks, []⟩

def wsPlus : Tok := .many1 pyIsSpace

def rgDocPats : List Pat :=
  [mkP (ilits "registro" ++ [wsPlus] ++ ilits "geral"),
   mkP (ilits "carteira" ++ [wsPlus] ++ ilits "de" ++ [wsPlus] ++ ilits "identidade"),
   mkP (ilits "república" ++ [wsPlus] ++ ilits "federativa" ++ [wsPlus] ++ ilits "do" ++
        [wsPlus] ++ ilits "brasil"),
   mkP (ilits "secretaria" ++ [wsPlus] ++ ilits "de" ++ [wsPlus] ++ ilits "segurança"),
   mkP (ilits "rg" ++ sepTok ++ [.many1 charIsDigit])]

def cnhDocPats : List Pat :=
  [mkP (ilits "carteira" ++ [wsPlus] ++ ilits "nacional" ++ [wsPlus] ++ ilits "de" ++
        [wsPlus] ++ ilits "habilitação"),
   mkP (ilits "permissão" ++ [wsPlus] ++ ilits "para" ++ [wsPlus] ++ ilits "dirigir"),
   mkP (ilits "categoria"),
   mkP (ilits "validade"),
   mkP (ilits "cnh" ++ sepTok ++ [.many1 charIsDigit]),
   mkP (ilits "registro" ++ sepTok ++ [.many1 charIsDigit])]

def passDocPats : List Pat :=
  [mkP (ilits "passaporte"),
   mkP (ilits "passport"),
   mkP (ilits "república" ++ [wsPlus] ++ ilits "federativa" ++ [wsPlus] ++ ilits "do" ++
        [wsPlus] ++ ilits "brasil"),
   mkP (ilits "ministério" ++ [wsPlus] ++ ilits "das" ++ [wsPlus] ++ ilits "relações" ++
        [wsPlus] ++ ilits "exteriores"),
   mkP (ilits "tipo" ++ [.many0 pyIsSpace, .lit ':', .many0 pyIsSpace] ++ ilits "p"),
   mkP (ilits "país" ++ [wsPlus] ++ ilits "de" ++ [wsPlus] ++ ilits "emissão")]

/-- Source `score += len(re.findall(pattern, text, re.IGNORECASE))` over one
signature set (on the lowered text). -/
def typeScore (pats : List Pat) (t : Str) : Nat :=
  pats.foldl (fun a p => a + countAll p t) 0

/-- The scores dict, in insertion order RG, CNH, PASSAPORTE. -/
def docTypeScores (text : Str) : List (String × Nat) :=
  let t := pyLowerStr text
  [("RG", typeScore rgDocPats t),
   ("CNH", typeScore cnhDocPats t),
   ("PASSAPORTE", typeScore passDocPats t)]

/-- Source `max(scores, key=scores.get)` together with `max(scores.values())`:
Python's `max` keeps the first element on ties. -/
def pyMaxByVal : List (String × Nat) → Option (String × Nat)
  | [] => none
  | x :: xs => some (xs.foldl (fun b y => if b.2 < y.2 then y else b) x)

/-- Source `RobustDocumentProcessor.identify_document_type`. -/
def identify_document_type (text : Str) : Option String :=
  if text = [] then none
  else
    match pyMaxByVal (docTypeScores text) with
    | some kv => if 0 < kv.2 then some kv.1 else none
    | none => none

/-! ### `extract_information_from_forms` and the structured/free-text merge -/

def nomeKeys : List Str := ["nome", "name", "titular"].map String.toList

def cpfKeys : List Str := ["cpf", "c.p.f", "cadastro de pessoa física"].map String.toList

def rgKeys : List Str := ["rg", "registro geral", "identidade", "registro"].map String.toList

def nisKeys : List Str :=
  ["nis", "pis", "pasep", "nis/pis/pasep", "pis/pasep"].map String.toList

/-- Code points of the OCR-noise class removed from structured CPF values
(`~` `` ` `` `!` `@` `#` `$` `%` `^` `&` `*` `(` `)` `_` `+` `=` the two
square and curly brackets `|` `\` `:` `"` `;` apostrophe `<` `>` `?` `,`
`.` `/`). -/
def ocrPunct : List Nat :=
  [126, 96, 33, 64, 35, 36, 37, 94, 38, 42, 40, 41, 95, 43, 61,
   91, 93, 123, 125, 124, 92, 58, 34, 59, 39, 60, 62, 63, 44, 46, 47]

def isOcrPunct (c : Char) : Bool := ocrPunct.contains c.toNat

/-- Source `O→0`, `l→1`, `S→5`, `Z→2` (the OCR digit-confusion substitutions). -/
def ocrDigitFix (c : Char) : Char :=
  if c = 'O' then '0' else if c = 'l' then '1'
  else if c = 'S' then '5' else if c = 'Z' then '2' else c

/-- The OCR clean-up chain applied to a structured CPF value. -/
def ocrFix (v : Str) : Str :=
  (v.filter (fun c => !(isOcrPunct c))).map ocrDigitFix

/-- Step 1 of the forms extractor: 11-digit values under
NIS/PIS/PASEP-like keys (the exclusion set). -/
def formsNis (kvs : List (Str × Str)) : List Str :=
  kvs.foldl (fun acc kv =>
    if nisKeys.any (fun pk => hasSub (pyLowerStr kv.1) pk) then
      match searchCap ⟨[], grp11, []⟩ kv.2 with
      | some n => acc ++ [n]
      | none => acc
    else acc) []

/-- The CPF field loop of `extract_information_from_forms`: first key
whose OCR-fixed value holds an 11-digit run outside the exclusion set and
passing validation (else the traditional `\d{3}.\d{3}.\d{3}-\d{2}` match
on the raw value), formatted. -/
def formsCpfLoop : List (Str × Str) → List Str → Str
  | [], _ => []
  | kv :: rest, nis =>
    if cpfKeys.any (fun pk => hasSub (pyLowerStr kv.1) pk) then
      match searchCap ⟨[], grp11, []⟩ (ocrFix kv.2) with
      | some c =>
        if c.length = 11 && !(nis.contains c) && validate_cpf c then formatCpf c
        else
          match searchCap ⟨[], grpFmt, []⟩ kv.2 with
          | some m =>
            if (clean_cpf m).length = 11 && !(nis.contains (clean_cpf m)) &&
                validate_cpf (clean_cpf m) then formatCpf (clean_cpf m)
            else formsCpfLoop rest nis
          | none => formsCpfLoop rest nis
      | none =>
        match searchCap ⟨[], grpFmt, []⟩ kv.2 with
        | some m =>
          if (clean_cpf m).length = 11 && !(nis.contains (clean_cpf m)) &&
              validate_cpf (clean_cpf m) then formatCpf (clean_cpf m)
          else formsCpfLoop rest nis
        | none => formsCpfLoop rest nis
    else formsCpfLoop rest nis

/-- The name field loop: first key whose cleaned value is longer than 5,
title-cased. -/
def formsNomeLoop : List (Str × Str) → Str
  | [] => []
  | kv :: rest =>
    if nomeKeys.any (fun pk => hasSub (pyLowerStr kv.1) pk) then
      let nome := collapseWs (kv.2.filter nameKeepChar)
      if 5 < nome.length then pyTitle nome else formsNomeLoop rest
    else formsNomeLoop rest

/-- The id-number field loop: value of the first matching key, stripped. -/
def formsRgLoop : List (Str × Str) → Str
  | [] => []
  | kv :: rest =>
    if rgKeys.any (fun pk => hasSub (pyLowerStr kv.1) pk) then pyStrip kv.2
    else formsRgLoop rest

def extract_information_from_forms (kvs : List (Str × Str)) : InfoRec :=
  ⟨formsNomeLoop kvs, formsCpfLoop kvs (formsNis kvs), formsRgLoop kvs⟩

/-- The reconciliation of `process_document`:
`info[field] = info_forms.get(field) or info_text.get(field, '')`. -/
def mergeInfo (forms text : InfoRec) : InfoRec :=
  ⟨if forms.nome = [] then text.nome else forms.nome,
   if forms.cpf = [] then text.cpf else forms.cpf,
   if forms.rg = [] then text.rg else forms.rg⟩

/-! ### `AdvancedFaceDetector` and the photo-selection fallback chain -/

inductive DetMethod where
  | frontalDefault
  | frontalAlt
  | profile
deriving DecidableEq

/-- One raw detector hit `(x, y, w, h, method_name)`. -/
structure Det where
  x : Nat
  y : Nat
  w : Nat
  h : Nat
  method : DetMethod
deriving DecidableEq

/-- Source `overlap_x * overlap_y` (the truncated `Nat` subtraction models the
source's `max(0, min(...) - max(...))`). -/
def overlapArea (a b : Det) : Nat :=
  (min (a.x + a.w) (b.x + b.w) - max a.x b.x) *
  (min (a.y + a.h) (b.y + b.h) - max a.y b.y)

def detArea (a : Det) : Nat := a.w * a.h

/-- Source `overlap_area > 0.5 * min(area1, area2)`: the float comparison is
exact at these magnitudes, and on integers it is exactly
`min(area1, area2) < 2 * overlap_area`. -/
def isDuplicatePair (a b : Det) : Bool :=
  decide (min (detArea a) (detArea b) < 2 * overlapArea a b)

/-- Source `AdvancedFaceDetector.remove_duplicate_faces`. -/
def remove_duplicate_faces (faces : List Det) : List Det :=
  if faces.length ≤ 1 then faces
  else faces.foldl (fun unique face =>
    if unique.any (fun u => isDuplicatePair face u) then unique
    else unique ++ [face]) []

structure Rect where
  x : Nat
  y : Nat
  w : Nat
  h : Nat
deriving DecidableEq

/-- Source `DocumentProcessor.crop_face_3x4` (the final resize to the fixed
200 by 267 output raster is a collaborator operation on the returned
region; `int(h*0.3)` and friends are the exact integer values of the
float expressions at realistic sizes; a zero-height expansion raises in
the source and is caught, hence `none`). -/
def crop_face_3x4 (imgH imgW x y w h : Nat) : Option Rect :=
  let sideM := w / 10
  let topM := 3 * h / 10
  let botM := h / 5
  let ex0 := x - sideM
  let ey0 := y - topM
  let ew0 := min (imgW - ex0) (w + 2 * sideM)
  let eh0 := min (imgH - ey0) (h + topM + botM)
  if eh0 = 0 then none
  else
    let r :=
      if 3 * eh0 < 4 * ew0 then
        let nw := 3 * eh0 / 4
        (ex0 + (ew0 - nw) / 2, ey0, nw, eh0)
      else
        let nh := 4 * ew0 / 3
        (ex0, ey0 + (eh0 - nh) / 2, ew0, nh)
    let ew2 := min (imgW - r.1) r.2.2.1
    let eh2 := min (imgH - r.2.1) r.2.2.2
    if 0 < ew2 * eh2 then some ⟨r.1, r.2.1, ew2, eh2⟩ else none

/-- One input image together with the raw hits the external cascade
detectors report on each enhancement variant (index 0 is the unenhanced
original); the enhancement rasters share the original's dimensions. -/
structure ImgData where
  height : Nat
  width : Nat
  variantDetections : List (List Det)
deriving DecidableEq

/-- An exact unnormalized fraction over `Nat`: the value of a float
confidence expression of the source (kept unreduced so that the model
stays executable; `fracVal` reads off the rational value). -/
structure Frac where
  num : Nat
  den : Nat
deriving DecidableEq

def fracVal (f : Frac) : ℚ := (f.num : ℚ) / (f.den : ℚ)

/-- Value comparison of two fractions by cross-multiplication (the order
used by `list.sort(key=lambda x: x[2])`, exact for positive
denominators). -/
def fracLe (a b : Frac) : Bool := decide (a.num * b.den ≤ b.num * a.den)

/-- One entry of the `all_faces` list of `detect_faces_advanced`. -/
structure Cand where
  imgH : Nat
  imgW : Nat
  det : Det
  enhIdx : Nat
  region : Rect
  conf : Frac
deriving DecidableEq

/-- The sequential confidence computation of `detect_faces_advanced`:
`confidence = face_area / image_area`, then `*= 1.2` or `*= 1.1` for the
frontal configurations, then `*= 1.1` on the unenhanced original. -/
def candConf1 (img : ImgData) (d : Det) : Frac :=
  if d.method = .frontalDefault then Frac.mk (d.w * d.h * 12) (img.height * img.width * 10)
  else if d.method = .frontalAlt then Frac.mk (d.w * d.h * 11) (img.height * img.width * 10)
  else Frac.mk (d.w * d.h) (img.height * img.width)

def candConf (img : ImgData) (enhIdx : Nat) (d : Det) : Frac :=
  if enhIdx = 0 then
    Frac.mk ((candConf1 img d).num * 11) ((candConf1 img d).den * 10)
  else candConf1 img d

/-- The sort order of `all_faces.sort(key=lambda x: x[2], reverse=True)`:
`a` may precede `b` when `b`'s confidence is at most `a`'s. -/
abbrev candGE (a b : Cand) : Prop := fracLe b.conf a.conf = true

/-- Source `DocumentProcessor.detect_faces_advanced`: per image and enhancement
variant, deduplicate the raw hits, score and crop them; then the stable
descending sort by confidence (`list.sort(key=..., reverse=True)` and
insertion sort agree on every list, both being stable). -/
def detect_faces_advanced (images : List ImgData) : List Cand :=
  let allFaces := images.flatMap (fun img =>
    (img.variantDetections.enum).flatMap (fun ed =>
      (remove_duplicate_faces ed.2).filterMap (fun d =>
        (crop_face_3x4 img.height img.width d.x d.y d.w d.h).map
          (fun r => ⟨img.height, img.width, d, ed.1, r, candConf img ed.1 d⟩))))
  allFaces.insertionSort candGE

def methodName : DetMethod → String
  | .frontalDefault => "frontal_default"
  | .frontalAlt => "frontal_alt"
  | .profile => "profile"

/-- Source `detection_info = f"{method}_enh{enh_idx}"`. -/
def candInfo (c : Cand) : String :=
  methodName c.det.method ++ "_enh" ++ toString c.enhIdx

/-- Third tier of the fallback chain: the first rendered-and-cropped
page, else the no-photo result. -/
def tier3Result (fullPages : Except Unit (List Nat)) : Option (Cand ⊕ Nat) × String :=
  match fullPages with
  | .ok (p :: _) => (some (Sum.inr p), "full_document")
  | _ => (none, "none")

/-- Source `DocumentProcessor.detect_best_photo_or_fallback`.  The two rendering
sessions (faces-from-rendered-pages, full-page extraction) are modelled
as collaborator inputs that may fail (`Except`); the attached counter is
the number of renderer sessions opened, so that tier short-circuiting is
observable.  The rendered-face tier only examines the first 3 pages. -/
def detect_best_photo_or_fallback (embedded : List ImgData)
    (renderedPages : Except Unit (List ImgData)) (fullPages : Except Unit (List Nat)) :
    (Option (Cand ⊕ Nat) × String) × Nat :=
  match detect_faces_advanced embedded with
  | best :: _ => ((some (Sum.inl best), "face_detected_" ++ candInfo best), 0)
  | [] =>
    match renderedPages with
    | .ok pages =>
      match detect_faces_advanced (pages.take 3) with
      | best :: _ => ((some (Sum.inl best), "face_rendered_" ++ candInfo best), 1)
      | [] => (tier3Result fullPages, 2)
    | .error _ => (tier3Result fullPages, 2)

/-! ### Spec-side definitions and concrete witness data -/

def imgC9 : ImgData := ⟨10, 10, [[⟨0, 0, 8, 10, .profile⟩]]⟩

def candC9 : Cand := ⟨10, 10, ⟨0, 0, 8, 10, .profile⟩, 0, ⟨0, 0, 7, 10⟩, ⟨880, 1000⟩⟩

/-- The digit values of a string, as the spec reads them. -/
def digitsOf (s : Str) : List Nat := s.map digitVal

/-- The spec's weighted sum over the first `n` digits with leading
weight `w0`. -/
def weightedSum (ds : List Nat) (n w0 : Nat) : Nat :=
  ∑ i in Finset.range n, ds.getD i 0 * (w0 - i)

/-- Source `11 - (sum mod 11)`, mapped to 0 when 10 or more. -/
def specCheckDigit (sum : Nat) : Nat :=
  if 10 ≤ 11 - sum % 11 then 0 else 11 - sum % 11

/-- The spec's statement of validity for a cleaned tax-id string. -/
def specTaxIdOk (cs : Str) : Prop :=
  cs.length = 11 ∧
  (¬ ∃ d : Nat, digitsOf cs = List.replicate 11 d) ∧
  (digitsOf cs).getD 9 0 = specCheckDigit (weightedSum (digitsOf cs) 9 10) ∧
  (digitsOf cs).getD 10 0 = specCheckDigit (weightedSum (digitsOf cs) 10 11)

/-- The spec's method bonus (1.2 default frontal, 1.1 alternative
frontal, 1.0 profile). -/
def methodBonus : DetMethod → ℚ
  | .frontalDefault => 12 / 10
  | .frontalAlt => 11 / 10
  | .profile => 1

/-- The spec's variant bonus (1.1 on the unenhanced original). -/
def variantBonus (enhIdx : Nat) : ℚ := if enhIdx = 0 then 11 / 10 else 1

def imgC8 : ImgData :=
  ⟨10, 10, [[], [⟨0, 0, 8, 10, .profile⟩], [⟨0, 0, 5, 10, .profile⟩],
    [⟨0, 0, 9, 10, .profile⟩]]⟩

def candC8 : Cand := ⟨10, 10, ⟨0, 0, 9, 10, .profile⟩, 3, ⟨1, 0, 7, 10⟩, ⟨90, 100⟩⟩

def textC4 : Str :=
  ("11144477735 " ++ String.mk (List.replicate 55 'x') ++ " cadastro 52998224725").toList

def textC4w : Str := "registro 52998224725".toList

/-! ### Shared lemmas about cleaning and formatting -/

lemma clean_cpf_idem (s : Str) : clean_cpf (clean_cpf s) = clean_cpf s := by
  unfold clean_cpf
  rw [List.filter_filter]
  simp

lemma clean_cpf_bkp_digits (s : Str) : ∀ c ∈ clean_cpf_bkp s, charIsDigit c = true := by
  intro c hc
  unfold clean_cpf_bkp at hc
  split at hc
  · split at hc
    · exact List.of_mem_filter (List.mem_of_mem_drop hc)
    · exact List.of_mem_filter (List.mem_of_mem_take hc)
  · exact List.of_mem_filter hc

lemma clean_cpf_bkp_length_le (s : Str) : (clean_cpf_bkp s).length ≤ 11 := by
  unfold clean_cpf_bkp
  split
  · split
    · rename_i h11 h14
      rw [List.length_drop, h14]
    · rw [List.length_take]
      omega
  · omega

lemma clean_cpf_bkp_idem (s : Str) : clean_cpf_bkp (clean_cpf_bkp s) = clean_cpf_bkp s := by
  suffices h : ∀ u : Str, (∀ c ∈ u, charIsDigit c = true) → u.length ≤ 11 →
      clean_cpf_bkp u = u by
    exact h _ (clean_cpf_bkp_digits s) (clean_cpf_bkp_length_le s)
  intro u hdig hlen
  unfold clean_cpf_bkp
  rw [List.filter_eq_self.mpr hdig]
  simp [Nat.not_lt.mpr hlen]

/-- Recomposition of the four format slices. -/
lemma formatCpf_slices (c : Str) :
    c.take 3 ++ (c.drop 3).take 3 ++ (c.drop 6).take 3 ++ c.drop 9 = c := by
  have h3 : c.take 3 ++ c.drop 3 = c := List.take_append_drop 3 c
  have h6 : (c.drop 3).take 3 ++ (c.drop 3).drop 3 = c.drop 3 := List.take_append_drop 3 _
  have h9 : (c.drop 6).take 3 ++ (c.drop 6).drop 3 = c.drop 6 := List.take_append_drop 3 _
  have e1 : (c.drop 3).drop 3 = c.drop 6 := by rw [List.drop_drop]
  have e2 : (c.drop 6).drop 3 = c.drop 9 := by rw [List.drop_drop]
  calc c.take 3 ++ (c.drop 3).take 3 ++ (c.drop 6).take 3 ++ c.drop 9
      = c.take 3 ++ ((c.drop 3).take 3 ++ ((c.drop 6).take 3 ++ (c.drop 6).drop 3)) := by
        rw [e2]; simp [List.append_assoc]
    _ = c.take 3 ++ ((c.drop 3).take 3 ++ (c.drop 3).drop 3) := by rw [h9, ← e1]
    _ = c := by rw [h6, h3]

lemma clean_cpf_formatCpf (c : Str) : clean_cpf (formatCpf c) = clean_cpf c := by
  unfold clean_cpf formatCpf
  conv_rhs => rw [← formatCpf_slices c]
  simp [List.filter_append, show charIsDigit '.' = false from rfl,
    show charIsDigit '-' = false from rfl]

/-! ### Claims C2 and C10: the cleaning contracts -/

/-- C2: `clean` strips all non-digit characters; above 11 digits it keeps
the trailing 11 digits when exactly 14 remain and the leading 11
otherwise, so the result never exceeds 11 digits (and is all digits). -/
theorem claim_C2 : ∀ s : Str,
    (clean_cpf_bkp s).length ≤ 11 ∧
    (∀ c ∈ clean_cpf_bkp s, charIsDigit c = true) ∧
    ((s.filter charIsDigit).length ≤ 11 → clean_cpf_bkp s = s.filter charIsDigit) ∧
    ((s.filter charIsDigit).length = 14 →
      clean_cpf_bkp s = (s.filter charIsDigit).drop ((s.filter charIsDigit).length - 11)) ∧
    (11 < (s.filter charIsDigit).length → (s.filter charIsDigit).length ≠ 14 →
      clean_cpf_bkp s = (s.filter charIsDigit).take 11) := by
  intro s
  refine ⟨clean_cpf_bkp_length_le s, clean_cpf_bkp_digits s, ?_, ?_, ?_⟩
  · intro h
    unfold clean_cpf_bkp
    simp [Nat.not_lt.mpr h]
  · intro h14
    unfold clean_cpf_bkp
    simp [h14]
  · intro h11 h14
    unfold clean_cpf_bkp
    simp [h11, h14]

/-- C2 witness: the comment's own example `200~262106898/76` (14 digits)
keeps the trailing 11. -/
theorem claim_C2_witness :
    clean_cpf_bkp "200~262106898/76".toList = "26210689876".toList := by
  have h := (claim_C2 "200~262106898/76".toList).2.2.2.1 (by decide)
  rw [h]
  decide

/-- C10: cleaning is idempotent and validation is invariant under
cleaning, for both the plain (robust/Textract) and the truncating (bkp)
variants of the validator. -/
theorem claim_C10 : ∀ s : Str,
    clean_cpf (clean_cpf s) = clean_cpf s ∧
    validate_cpf (clean_cpf s) = validate_cpf s ∧
    clean_cpf_bkp (clean_cpf_bkp s) = clean_cpf_bkp s ∧
    validate_cpf_bkp (clean_cpf_bkp s) = validate_cpf_bkp s := by
  intro s
  refine ⟨clean_cpf_idem s, ?_, clean_cpf_bkp_idem s, ?_⟩
  · unfold validate_cpf
    rw [clean_cpf_idem]
  · unfold validate_cpf_bkp
    rw [clean_cpf_bkp_idem]

/-! ### Claim C7: face deduplication -/

lemma overlapArea_comm (a b : Det) : overlapArea a b = overlapArea b a := by
  unfold overlapArea
  rw [Nat.min_comm (a.x + a.w), Nat.max_comm a.x, Nat.min_comm (a.y + a.h), Nat.max_comm a.y]

/-- C7: the code's duplicate test holds exactly when the intersection
area exceeds 50 percent of the smaller region's area, and of two such
overlapping detections exactly the first-seen one survives. -/
theorem claim_C7 :
    (∀ a b : Det, isDuplicatePair a b = true ↔
      (50 / 100 : ℚ) * ((min (detArea a) (detArea b) : Nat) : ℚ) <
        ((overlapArea a b : Nat) : ℚ)) ∧
    (∀ a b : Det, isDuplicatePair a b = true → remove_duplicate_faces [a, b] = [a]) := by
  constructor
  · intro a b
    unfold isDuplicatePair
    simp only [decide_eq_true_eq]
    generalize min (detArea a) (detArea b) = m
    generalize overlapArea a b = v
    constructor
    · intro h
      have h2 : (m : ℚ) < ((2 * v : Nat) : ℚ) := by exact_mod_cast h
      push_cast at h2
      linarith
    · intro h
      have h2 : (m : ℚ) < ((2 * v : Nat) : ℚ) := by push_cast; linarith
      exact_mod_cast h2
  · intro a b hab
    have hba : isDuplicatePair b a = true := by
      unfold isDuplicatePair at hab ⊢
      simp only [decide_eq_true_eq] at hab ⊢
      rw [overlapArea_comm b a, Nat.min_comm (detArea b)]
      exact hab
    simp [remove_duplicate_faces, hba]

/-- C7 witness: two nested boxes overlap on the whole smaller box. -/
theorem claim_C7_witness :
    isDuplicatePair ⟨0, 0, 10, 10, .profile⟩ ⟨0, 0, 6, 6, .profile⟩ = true ∧
    remove_duplicate_faces [⟨0, 0, 10, 10, .profile⟩, ⟨0, 0, 6, 6, .profile⟩] =
      [⟨0, 0, 10, 10, .profile⟩] :=
  ⟨by decide, claim_C7.2 _ _ (by decide)⟩

/-! ### Claim C9: the photo-selection fallback chain -/

/-- C9: the three tiers run strictly in order and short-circuit: a face
among the embedded images is returned with zero renderer sessions; a
face on the first three rendered pages is returned with one session; a
failed or faceless render tier advances to the full-page tier; only when
every tier yields nothing is `(none, "none")` returned. -/
theorem claim_C9 : ∀ (emb : List ImgData) (rend : Except Unit (List ImgData))
    (full : Except Unit (List Nat)),
    (∀ c rest, detect_faces_advanced emb = c :: rest →
      detect_best_photo_or_fallback emb rend full =
        ((some (Sum.inl c), "face_detected_" ++ candInfo c), 0)) ∧
    (detect_faces_advanced emb = [] → ∀ pages c rest, rend = .ok pages →
      detect_faces_advanced (pages.take 3) = c :: rest →
      detect_best_photo_or_fallback emb rend full =
        ((some (Sum.inl c), "face_rendered_" ++ candInfo c), 1)) ∧
    (detect_faces_advanced emb = [] →
      (rend = .error () ∨ ∃ pages, rend = .ok pages ∧
        detect_faces_advanced (pages.take 3) = []) →
      ∀ p ps, full = .ok (p :: ps) →
      detect_best_photo_or_fallback emb rend full =
        ((some (Sum.inr p), "full_document"), 2)) ∧
    (detect_faces_advanced emb = [] →
      (rend = .error () ∨ ∃ pages, rend = .ok pages ∧
        detect_faces_advanced (pages.take 3) = []) →
      (full = .error () ∨ full = .ok []) →
      detect_best_photo_or_fallback emb rend full = ((none, "none"), 2)) := by
  intro emb rend full
  refine ⟨?_, ?_, ?_, ?_⟩
  · intro c rest h
    simp only [detect_best_photo_or_fallback, h]
  · intro h0 pages c rest hr hp
    subst hr
    simp only [detect_best_photo_or_fallback, h0, hp]
  · intro h0 hcase p ps hf
    subst hf
    rcases hcase with he | ⟨pages, hr, hface⟩
    · subst he
      simp only [detect_best_photo_or_fallback, h0, tier3Result]
    · subst hr
      simp only [detect_best_photo_or_fallback, h0, hface, tier3Result]
  · intro h0 hcase hfull
    rcases hcase with he | ⟨pages, hr, hface⟩ <;>
      rcases hfull with hf | hf <;>
        subst hf <;> first
        | (subst he; simp only [detect_best_photo_or_fallback, h0, tier3Result])
        | (subst hr; simp only [detect_best_photo_or_fallback, h0, hface, tier3Result])

/-- C9 witness: with a detectable embedded face the renderer is never
invoked. -/
theorem claim_C9_witness :
    detect_best_photo_or_fallback [imgC9] (.ok []) (.ok [3]) =
      ((some (Sum.inl candC9), "face_detected_profile_enh0"), 0) := by
  have h := (claim_C9 [imgC9] (.ok []) (.ok [3])).1 candC9 [] (by decide)
  rw [h]
  decide

/-! ### Claim C3: document classification -/

/-- Python's `max(scores, key=scores.get)` over the three-entry score
dict keeps the first key on ties. -/
lemma pyMax3 (a b c : Nat) (kRG kCNH kPAS : String) :
    pyMaxByVal [(kRG, a), (kCNH, b), (kPAS, c)] =
      some (if a < b then (if b < c then (kPAS, c) else (kCNH, b))
            else (if a < c then (kPAS, c) else (kRG, a))) := by
  unfold pyMaxByVal
  simp only [List.foldl]
  split_ifs <;> simp_all

/-- C3 (amended): the classifier scores each type by total match count
over its signature set and returns the type with the highest score when
that score is positive; a tie on the maximum is broken in favour of the
earliest type in the fixed order RG, CNH, PASSAPORTE (not by returning
"unclassified"); all-zero scores yield no classification. -/
theorem claim_C3 : ∀ text : Str,
    (identify_document_type text = none ↔
      typeScore rgDocPats (pyLowerStr text) = 0 ∧
      typeScore cnhDocPats (pyLowerStr text) = 0 ∧
      typeScore passDocPats (pyLowerStr text) = 0) ∧
    (identify_document_type text = some "RG" ↔
      0 < typeScore rgDocPats (pyLowerStr text) ∧
      typeScore cnhDocPats (pyLowerStr text) ≤ typeScore rgDocPats (pyLowerStr text) ∧
      typeScore passDocPats (pyLowerStr text) ≤ typeScore rgDocPats (pyLowerStr text)) ∧
    (identify_document_type text = some "CNH" ↔
      typeScore rgDocPats (pyLowerStr text) < typeScore cnhDocPats (pyLowerStr text) ∧
      typeScore passDocPats (pyLowerStr text) ≤ typeScore cnhDocPats (pyLowerStr text)) ∧
    (identify_document_type text = some "PASSAPORTE" ↔
      typeScore rgDocPats (pyLowerStr text) < typeScore passDocPats (pyLowerStr text) ∧
      typeScore cnhDocPats (pyLowerStr text) < typeScore passDocPats (pyLowerStr text)) := by
  intro text
  by_cases h0 : text = []
  · subst h0
    have h1 : typeScore rgDocPats (pyLowerStr []) = 0 := by decide
    have h2 : typeScore cnhDocPats (pyLowerStr []) = 0 := by decide
    have h3 : typeScore passDocPats (pyLowerStr []) = 0 := by decide
    refine ⟨?_, ?_, ?_, ?_⟩ <;> simp [identify_document_type, h1, h2, h3]
  · have hmax := pyMax3 (typeScore rgDocPats (pyLowerStr text))
      (typeScore cnhDocPats (pyLowerStr text))
      (typeScore passDocPats (pyLowerStr text)) "RG" "CNH" "PASSAPORTE"
    unfold identify_document_type docTypeScores
    rw [if_neg h0, hmax]
    split_ifs <;> (refine ⟨?_, ?_, ?_, ?_⟩ <;> simp) <;> omega

/-- C3 counterexample: on `"registro geral categoria"` the RG and CNH
scores tie at the positive maximum, yet the classifier answers RG
rather than "unclassified". -/
theorem claim_C3_cex :
    identify_document_type "registro geral categoria".toList = some "RG" ∧
    typeScore rgDocPats (pyLowerStr "registro geral categoria".toList) = 1 ∧
    typeScore cnhDocPats (pyLowerStr "registro geral categoria".toList) = 1 ∧
    typeScore passDocPats (pyLowerStr "registro geral categoria".toList) = 0 := by
  refine ⟨by decide, by decide, by decide, by decide⟩

/-- C3 witness: a text with a strict positive maximum is classified as
that type. -/
theorem claim_C3_witness :
    identify_document_type "passaporte passport".toList = some "PASSAPORTE" := by
  exact (claim_C3 "passaporte passport".toList).2.2.2.mpr ⟨by decide, by decide⟩

/-! ### Claim C5: structured-data priority with the validation gate -/

lemma validate_formatCpf (c : Str) : validate_cpf (formatCpf c) = validate_cpf c := by
  unfold validate_cpf
  rw [clean_cpf_formatCpf]

/-- Every non-empty result of the structured CPF loop passed the
checksum validation before being formatted. -/
lemma formsCpfLoop_validate (kvs : List (Str × Str)) (nis : List Str) :
    formsCpfLoop kvs nis ≠ [] → validate_cpf (formsCpfLoop kvs nis) = true := by
  induction kvs with
  | nil => intro h; simp [formsCpfLoop] at h
  | cons kv rest ih =>
    unfold formsCpfLoop
    split
    · split
      · split
        · rename_i hcond
          intro _
          simp only [Bool.and_eq_true, decide_eq_true_eq] at hcond
          rw [validate_formatCpf]
          exact hcond.2
        · split
          · split
            · rename_i hcond2
              intro _
              simp only [Bool.and_eq_true, decide_eq_true_eq] at hcond2
              rw [validate_formatCpf]
              exact hcond2.2
            · exact ih
          · exact ih
      · split
        · split
          · rename_i hcond2
            intro _
            simp only [Bool.and_eq_true, decide_eq_true_eq] at hcond2
            rw [validate_formatCpf]
            exact hcond2.2
          · exact ih
        · exact ih
    · exact ih

/-- C5: for each of the three fields the merged result takes the
structured hit whenever the forms extractor produced one and keeps the
free-text value (or empty) otherwise, and a structured tax-id hit is
only ever produced after passing `validate_cpf`. -/
theorem claim_C5 : ∀ (kvs : List (Str × Str)) (t : InfoRec),
    ((mergeInfo (extract_information_from_forms kvs) t).nome =
      if (extract_information_from_forms kvs).nome = [] then t.nome
      else (extract_information_from_forms kvs).nome) ∧
    ((mergeInfo (extract_information_from_forms kvs) t).cpf =
      if (extract_information_from_forms kvs).cpf = [] then t.cpf
      else (extract_information_from_forms kvs).cpf) ∧
    ((mergeInfo (extract_information_from_forms kvs) t).rg =
      if (extract_information_from_forms kvs).rg = [] then t.rg
      else (extract_information_from_forms kvs).rg) ∧
    ((extract_information_from_forms kvs).cpf ≠ [] →
      validate_cpf (extract_information_from_forms kvs).cpf = true) := by
  intro kvs t
  refine ⟨rfl, rfl, rfl, ?_⟩
  exact formsCpfLoop_validate kvs (formsNis kvs)

/-- C5 witness: a structured CPF under the key `cpf` overrides the
free-text value and is validated. -/
theorem claim_C5_witness :
    (mergeInfo (extract_information_from_forms [("cpf".toList, "529.982.247-25".toList)])
        ⟨"Ana".toList, "111".toList, "22".toList⟩).cpf = "529.982.247-25".toList ∧
    validate_cpf (extract_information_from_forms
        [("cpf".toList, "529.982.247-25".toList)]).cpf = true := by
  constructor
  · decide
  · exact (claim_C5 [("cpf".toList, "529.982.247-25".toList)]
      ⟨"Ana".toList, "111".toList, "22".toList⟩).2.2.2 (by decide)

/-! ### Claim C6: name acceptance -/

lemma splitWsAux_mem (s : Str) : ∀ acc : Str, ∀ w ∈ splitWsAux s acc, ∀ c ∈ w,
    c ∈ s ∨ c ∈ acc := by
  induction s with
  | nil =>
    intro acc w hw c hc
    unfold splitWsAux at hw
    split at hw
    · simp at hw
    · simp only [List.mem_singleton] at hw
      subst hw
      exact Or.inr (List.mem_reverse.mp hc)
  | cons a as ih =>
    intro acc w hw c hc
    unfold splitWsAux at hw
    split at hw
    · split at hw
      · rcases ih [] w hw c hc with h | h
        · exact Or.inl (List.mem_cons_of_mem a h)
        · simp at h
      · rcases List.mem_cons.mp hw with h | h
        · subst h
          exact Or.inr (List.mem_reverse.mp hc)
        · rcases ih [] w h c hc with h2 | h2
          · exact Or.inl (List.mem_cons_of_mem a h2)
          · simp at h2
    · rcases ih (a :: acc) w hw c hc with h | h
      · exact Or.inl (List.mem_cons_of_mem a h)
      · rcases List.mem_cons.mp h with h2 | h2
        · exact Or.inl (h2 ▸ List.mem_cons_self a as)
        · exact Or.inr h2

lemma mem_intercalate_space (parts : List Str) : ∀ c ∈ List.intercalate [' '] parts,
    c = ' ' ∨ ∃ w ∈ parts, c ∈ w := by
  induction parts with
  | nil => simp [List.intercalate]
  | cons w ws ih =>
    intro c hc
    cases ws with
    | nil =>
      simp only [List.intercalate, List.intersperse_singleton, List.flatten] at hc
      simp at hc
      exact Or.inr ⟨w, by simp, hc⟩
    | cons w2 ws2 =>
      rw [List.intercalate, List.intersperse_cons_cons, List.flatten_cons,
        List.flatten_cons] at hc
      rcases List.mem_append.mp hc with h | h
      · exact Or.inr ⟨w, by simp, h⟩
      · rcases List.mem_append.mp h with h2 | h2
        · simp at h2
          exact Or.inl h2
        · rcases ih c (by rw [List.intercalate]; exact h2) with h3 | ⟨w3, hw3, hcw3⟩
          · exact Or.inl h3
          · exact Or.inr ⟨w3, List.mem_cons_of_mem w hw3, hcw3⟩

lemma nomeClean_not_digit (raw : Str) : ∀ c ∈ nomeClean raw, charIsDigit c = false := by
  intro c hc
  unfold nomeClean collapseWs at hc
  rcases mem_intercalate_space _ c hc with h | ⟨w, hw, hcw⟩
  · subst h; decide
  · have hmem : c ∈ (pyStrip raw).filter nameKeepChar := by
      rcases splitWsAux_mem _ [] w hw c hcw with h | h
      · exact h
      · simp at h
    have hk : nameKeepChar c = true := List.of_mem_filter hmem
    unfold nameKeepChar at hk
    simp only [Bool.or_eq_true, Bool.and_eq_true, decide_eq_true_eq] at hk
    rcases hk with ((⟨h1, h2⟩ | ⟨h1, h2⟩) | h) | h
    · unfold charIsDigit
      simp only [Bool.and_eq_true, decide_eq_true_eq, Bool.and_eq_false_iff,
        decide_eq_false_iff_not]
      omega
    · unfold charIsDigit
      simp only [Bool.and_eq_false_iff, decide_eq_false_iff_not]
      omega
    · have : c ∈ "áàâãéêíóôõúç".toList := by
        simpa using h
      fin_cases this <;> decide
    · have h6 : ((((c = ' ' ∨ c = '\t') ∨ c = '\n') ∨ c = '\x0d') ∨ c = '\x0c') ∨
          c = '\x0b' := by
        simpa [pyIsSpace] using h
      rcases h6 with ((((h | h) | h) | h) | h) | h <;> subst h <;> decide

lemma pyIsDigitStr_nomeClean (raw : Str) : pyIsDigitStr (nomeClean raw) = false := by
  unfold pyIsDigitStr
  cases h : nomeClean raw with
  | nil => simp
  | cons c cs =>
    have hc := nomeClean_not_digit raw c (by rw [h]; exact List.mem_cons_self c cs)
    simp [List.all_cons, hc]

/-- C6 (amended): a captured name candidate is cleaned of non-letter
characters and accepted exactly when the cleaned value is longer than 5
characters (the additional `isdigit` rejection is vacuous after
letter-filtering, and no two-token requirement exists: single-word
captures longer than 5 letters are accepted); any returned name is the
title-cased cleaned capture of one of the patterns. -/
theorem claim_C6 :
    (∀ raw : Str, (tryAcceptNome raw).isSome = true ↔ 5 < (nomeClean raw).length) ∧
    (∀ text : Str, extract_nome_from_text text ≠ [] →
      ∃ raw : Str, extract_nome_from_text text = pyTitle (nomeClean raw) ∧
        5 < (nomeClean raw).length) := by
  constructor
  · intro raw
    unfold tryAcceptNome
    rw [pyIsDigitStr_nomeClean]
    split_ifs with h <;> simp_all
  · intro text h
    unfold extract_nome_from_text at h ⊢
    cases hce : nomePats.findSome? (fun p => (searchCap p text).bind tryAcceptNome) with
    | none => rw [hce] at h; simp at h
    | some v =>
      dsimp only at h ⊢
      obtain ⟨p, hp, hf⟩ := List.exists_of_findSome?_eq_some hce
      obtain ⟨raw, hsr, hacc⟩ := Option.bind_eq_some.mp hf
      unfold tryAcceptNome at hacc
      split at hacc
      · rename_i hcond
        rw [pyIsDigitStr_nomeClean] at hcond
        simp only [Bool.and_eq_true, decide_eq_true_eq] at hcond
        refine ⟨raw, ?_, hcond.1⟩
        simp only [Option.some.injEq] at hacc
        rw [← hacc]
      · simp at hacc

/-- C6 counterexample: the single-word capture `ROBERTO` (7 letters) is
accepted and returned, where the claim demands an empty name. -/
theorem claim_C6_cex :
    extract_nome_from_text "nome: ROBERTO".toList = "Roberto".toList ∧
    (pySplitWs (extract_nome_from_text "nome: ROBERTO".toList)).length = 1 :=
  ⟨by decide, by decide⟩

/-- C6 witness: a two-word capture of length above 5 is accepted, and a
returned name is a title-cased cleaned capture. -/
theorem claim_C6_witness :
    (tryAcceptNome "MARIA SILVA".toList).isSome = true ∧
    (∃ raw : Str, extract_nome_from_text "nome: MARIA SILVA".toList =
      pyTitle (nomeClean raw) ∧ 5 < (nomeClean raw).length) :=
  ⟨(claim_C6.1 "MARIA SILVA".toList).mpr (by decide),
   claim_C6.2 "nome: MARIA SILVA".toList (by decide)⟩

/-! ### Claim C1: the checksum validator -/

lemma char_eq_of_toNat {c d : Char} (h : c.toNat = d.toNat) : c = d := by
  apply Char.ext
  apply UInt32.ext
  exact h

lemma charToNat_ofNat (n : Nat) (h : n < 55296) : (Char.ofNat n).toNat = n := by
  unfold Char.ofNat
  split
  · rfl
  · rename_i hv
    exact absurd (Or.inl (by omega)) hv

lemma specCheckDigit_le_nine (sum : Nat) : specCheckDigit sum ≤ 9 := by
  unfold specCheckDigit
  have : sum % 11 < 11 := Nat.mod_lt _ (by omega)
  split <;> omega

lemma digit_char_eq_ofNat_iff (c : Char) (k : Nat) (hc : charIsDigit c = true)
    (hk : k ≤ 9) : c = Char.ofNat (48 + k) ↔ digitVal c = k := by
  unfold charIsDigit at hc
  simp only [Bool.and_eq_true, decide_eq_true_eq] at hc
  unfold digitVal
  constructor
  · intro h
    subst h
    rw [charToNat_ofNat _ (by omega)]
    omega
  · intro h
    apply char_eq_of_toNat
    rw [charToNat_ofNat _ (by omega)]
    omega

lemma digitsOf_getD (u : Str) (i : Nat) : (digitsOf u).getD i 0 = digitVal (charAtD u i) := by
  induction u generalizing i with
  | nil => simp [digitsOf, charAtD, digitVal]
  | cons c cs ih =>
    cases i with
    | zero => rfl
    | succ j => exact ih j

lemma charAtD_mem (u : Str) (i : Nat) (h : i < u.length) : charAtD u i ∈ u := by
  induction u generalizing i with
  | nil => simp at h
  | cons c cs ih =>
    cases i with
    | zero => exact List.mem_cons_self c cs
    | succ j => exact List.mem_cons_of_mem c (ih j (by simpa using h))

lemma charAtD_set_ne (u : Str) (i j : Nat) (a : Char) (h : i ≠ j) :
    charAtD (u.set i a) j = charAtD u j := by
  induction u generalizing i j with
  | nil => simp [List.set]
  | cons c cs ih =>
    cases i with
    | zero =>
      cases j with
      | zero => omega
      | succ j2 => rfl
    | succ i2 =>
      cases j with
      | zero => rfl
      | succ j2 => exact ih i2 j2 (by omega)

lemma charAtD_set_self (u : Str) (i : Nat) (a : Char) (h : i < u.length) :
    charAtD (u.set i a) i = a := by
  induction u generalizing i with
  | nil => simp at h
  | cons c cs ih =>
    cases i with
    | zero => rfl
    | succ i2 => exact ih i2 (by simpa using h)

lemma foldl_range_add (f : Nat → Nat) (n : Nat) :
    (List.range n).foldl (fun a i => a + f i) 0 = ∑ i in Finset.range n, f i := by
  induction n with
  | zero => simp
  | succ n ih =>
    rw [List.range_succ, List.foldl_append, ih, Finset.sum_range_succ]
    simp

lemma allsame_char_iff (u : Str) (hlen : u.length = 11)
    (hdig : ∀ c ∈ u, charIsDigit c = true) :
    u = List.replicate 11 (charAtD u 0) ↔ ∃ d : Nat, digitsOf u = List.replicate 11 d := by
  constructor
  · intro h
    refine ⟨digitVal (charAtD u 0), ?_⟩
    unfold digitsOf
    conv_lhs => rw [h]
    exact List.map_replicate
  · rintro ⟨d, hd⟩
    have hall : ∀ c ∈ u, digitVal c = d := by
      intro c hc
      have hm : digitVal c ∈ digitsOf u := List.mem_map_of_mem _ hc
      rw [hd] at hm
      exact List.eq_of_mem_replicate hm
    have hd9 : d ≤ 9 := by
      have h0 : charAtD u 0 ∈ u := charAtD_mem u 0 (by omega)
      have h1 := hall _ h0
      have h2 := hdig _ h0
      unfold charIsDigit at h2
      simp only [Bool.and_eq_true, decide_eq_true_eq] at h2
      unfold digitVal at h1
      omega
    have hchar : ∀ c ∈ u, c = Char.ofNat (48 + d) := by
      intro c hc
      exact (digit_char_eq_ofNat_iff c d (hdig c hc) hd9).mpr (hall c hc)
    have h0 : charAtD u 0 = Char.ofNat (48 + d) :=
      hchar _ (charAtD_mem u 0 (by omega))
    rw [h0]
    rw [List.eq_replicate_iff]
    exact ⟨hlen, hchar⟩

/-- The two weighted sums of the code body, renamed to the spec's form. -/
lemma body_sum_eq (u : Str) (n w0 : Nat) :
    (List.range n).foldl (fun a i => a + digitVal (charAtD u i) * (w0 - i)) 0 =
      weightedSum (digitsOf u) n w0 := by
  rw [foldl_range_add (fun i => digitVal (charAtD u i) * (w0 - i)) n]
  unfold weightedSum
  refine Finset.sum_congr rfl (fun i _ => ?_)
  rw [digitsOf_getD]

/-- C1: `validate_cpf` answers true exactly on strings whose cleaned
form is 11 digits long, not all one digit, with both trailing check
digits equal to the weighted-sum check digits of the spec; moreover a
valid all-digit string with one altered check digit (position 9 or 10)
validates false.  (Totality of the embedding models the contract that
no input raises.) -/
theorem claim_C1 :
    (∀ s : Str, validate_cpf s = true ↔ specTaxIdOk (clean_cpf s)) ∧
    (∀ (c : Str) (d : Char) (i : Nat), clean_cpf c = c → validate_cpf c = true →
      (i = 9 ∨ i = 10) → charIsDigit d = true → d ≠ charAtD c i →
      validate_cpf (c.set i d) = false) := by
  have hbody : ∀ u : Str, (∀ x ∈ u, charIsDigit x = true) →
      (validate_cpf_body u = true ↔ specTaxIdOk u) := by
    intro u hdig
    unfold validate_cpf_body specTaxIdOk
    by_cases hlen : u.length = 11
    · rw [if_neg (by omega)]
      by_cases hsame : u = List.replicate 11 (charAtD u 0)
      · rw [if_pos hsame]
        constructor
        · intro h
          exact absurd h Bool.false_ne_true
        · rintro ⟨-, hne, -, -⟩
          exact absurd ((allsame_char_iff u hlen hdig).mp hsame) hne
      · rw [if_neg hsame]
        have h9mem := charAtD_mem u 9 (by omega)
        have h10mem := charAtD_mem u 10 (by omega)
        rw [Bool.and_eq_true, decide_eq_true_eq, decide_eq_true_eq]
        rw [body_sum_eq u 9 10, body_sum_eq u 10 11]
        have e1 : (if 10 ≤ 11 - weightedSum (digitsOf u) 9 10 % 11 then 0
            else 11 - weightedSum (digitsOf u) 9 10 % 11) =
            specCheckDigit (weightedSum (digitsOf u) 9 10) := rfl
        have e2 : (if 10 ≤ 11 - weightedSum (digitsOf u) 10 11 % 11 then 0
            else 11 - weightedSum (digitsOf u) 10 11 % 11) =
            specCheckDigit (weightedSum (digitsOf u) 10 11) := rfl
        rw [e1, e2]
        rw [digit_char_eq_ofNat_iff _ _ (hdig _ h9mem) (specCheckDigit_le_nine _)]
        rw [digit_char_eq_ofNat_iff _ _ (hdig _ h10mem) (specCheckDigit_le_nine _)]
        rw [digitsOf_getD, digitsOf_getD]
        constructor
        · rintro ⟨h1, h2⟩
          exact ⟨hlen, fun hex => hsame ((allsame_char_iff u hlen hdig).mpr hex), h1, h2⟩
        · rintro ⟨_, _, h1, h2⟩
          exact ⟨h1, h2⟩
    · rw [if_pos hlen]
      constructor
      · intro h
        exact absurd h Bool.false_ne_true
      · rintro ⟨h, -, -, -⟩
        exact absurd h hlen
  constructor
  · intro s
    have hdig : ∀ x ∈ clean_cpf s, charIsDigit x = true := fun x hx => List.of_mem_filter hx
    exact hbody (clean_cpf s) hdig
  · intro c d i hclean hval hi hd hne
    have hdig : ∀ x ∈ c, charIsDigit x = true := by
      rw [← hclean]
      exact fun x hx => List.of_mem_filter hx
    unfold validate_cpf at hval ⊢
    rw [hclean] at hval
    have hclean2 : clean_cpf (c.set i d) = c.set i d := by
      apply List.filter_eq_self.mpr
      intro x hx
      rcases List.mem_or_eq_of_mem_set hx with h | h
      · exact hdig x h
      · rw [h]; exact hd
    rw [hclean2]
    -- unpack the facts carried by hval
    unfold validate_cpf_body at hval
    by_cases hlen : c.length = 11
    swap
    · rw [if_pos hlen] at hval
      exact absurd hval (by simp)
    rw [if_neg (by omega)] at hval
    by_cases hsame : c = List.replicate 11 (charAtD c 0)
    · rw [if_pos hsame] at hval
      exact absurd hval (by simp)
    rw [if_neg hsame] at hval
    rw [Bool.and_eq_true, decide_eq_true_eq, decide_eq_true_eq] at hval
    obtain ⟨h9, h10⟩ := hval
    -- evaluate the altered string
    unfold validate_cpf_body
    have hlen2 : (c.set i d).length = 11 := by rw [List.length_set]; exact hlen
    rw [if_neg (by omega)]
    by_cases hsame2 : c.set i d = List.replicate 11 (charAtD (c.set i d) 0)
    · rw [if_pos hsame2]
    · rw [if_neg hsame2]
      have hsum9 : (List.range 9).foldl
          (fun a j => a + digitVal (charAtD (c.set i d) j) * (10 - j)) 0 =
          (List.range 9).foldl (fun a j => a + digitVal (charAtD c j) * (10 - j)) 0 := by
        rw [foldl_range_add, foldl_range_add]
        refine Finset.sum_congr rfl (fun j hj => ?_)
        rw [charAtD_set_ne c i j d (by rcases hi with rfl | rfl <;>
          simp only [Finset.mem_range] at hj <;> omega)]
      rcases hi with rfl | rfl
      · -- altered first check digit
        have hat : charAtD (c.set 9 d) 9 = d := charAtD_set_self c 9 d (by omega)
        rw [hsum9, hat]
        have : ¬ (d = Char.ofNat (48 + (if 10 ≤ 11 -
            ((List.range 9).foldl (fun a j => a + digitVal (charAtD c j) * (10 - j)) 0) % 11
            then 0 else 11 -
            ((List.range 9).foldl (fun a j => a + digitVal (charAtD c j) * (10 - j)) 0) % 11))) := by
          rw [← h9]
          exact hne
        simp [this]
      · -- altered second check digit
        have hsum10 : (List.range 10).foldl
            (fun a j => a + digitVal (charAtD (c.set 10 d) j) * (11 - j)) 0 =
            (List.range 10).foldl (fun a j => a + digitVal (charAtD c j) * (11 - j)) 0 := by
          rw [foldl_range_add, foldl_range_add]
          refine Finset.sum_congr rfl (fun j hj => ?_)
          rw [charAtD_set_ne c 10 j d (by simp only [Finset.mem_range] at hj; omega)]
        have hat : charAtD (c.set 10 d) 10 = d := charAtD_set_self c 10 d (by omega)
        rw [hsum10, hat]
        have : ¬ (d = Char.ofNat (48 + (if 10 ≤ 11 -
            ((List.range 10).foldl (fun a j => a + digitVal (charAtD c j) * (11 - j)) 0) % 11
            then 0 else 11 -
            ((List.range 10).foldl (fun a j => a + digitVal (charAtD c j) * (11 - j)) 0) % 11))) := by
          rw [← h10]
          exact hne
        simp [this]

/-- C1 witness: the reference ID `111.444.777-35` validates, satisfies
the spec predicate, and altering its last check digit invalidates it. -/
theorem claim_C1_witness :
    specTaxIdOk (clean_cpf "111.444.777-35".toList) ∧
    validate_cpf ("11144477735".toList.set 10 '6') = false :=
  ⟨(claim_C1.1 "111.444.777-35".toList).mp (by decide),
   claim_C1.2 "11144477735".toList '6' 10 (by decide) (by decide) (Or.inr rfl)
     (by decide) (by decide)⟩

/-! ### Claim C8: confidence scoring and descending order -/

lemma fracVal_candConf (img : ImgData) (enhIdx : Nat) (d : Det)
    (hpos : 0 < img.height * img.width) :
    fracVal (candConf img enhIdx d) =
      ((d.w * d.h : Nat) : ℚ) / ((img.height * img.width : Nat) : ℚ) *
        methodBonus d.method * variantBonus enhIdx := by
  have hne : ((img.height * img.width : Nat) : ℚ) ≠ 0 := Nat.cast_ne_zero.mpr (by omega)
  rcases hm : d.method <;> by_cases he : enhIdx = 0 <;>
    simp [candConf, candConf1, methodBonus, variantBonus, fracVal, hm, he] <;>
    field_simp

lemma mul_pos_parts {a b : Nat} (h : 0 < a * b) : 0 < a ∧ 0 < b := by
  constructor
  · rcases Nat.eq_zero_or_pos a with h0 | h0
    · rw [h0, Nat.zero_mul] at h
      exact absurd h (lt_irrefl 0)
    · exact h0
  · rcases Nat.eq_zero_or_pos b with h0 | h0
    · rw [h0, Nat.mul_zero] at h
      exact absurd h (lt_irrefl 0)
    · exact h0

lemma candConf_den_pos (img : ImgData) (enhIdx : Nat) (d : Det)
    (hpos : 0 < img.height * img.width) : 0 < (candConf img enhIdx d).den := by
  rcases hm : d.method <;> by_cases he : enhIdx = 0 <;>
    simp [candConf, candConf1, hm, he] <;> exact mul_pos_parts hpos

/-- Membership characterization of the detection output. -/
lemma mem_detect_faces_advanced {images : List ImgData} {c : Cand} :
    c ∈ detect_faces_advanced images ↔
    ∃ img ∈ images, ∃ ed ∈ img.variantDetections.enum,
      ∃ d ∈ remove_duplicate_faces ed.2,
        ∃ r, crop_face_3x4 img.height img.width d.x d.y d.w d.h = some r ∧
          Cand.mk img.height img.width d ed.1 r (candConf img ed.1 d) = c := by
  unfold detect_faces_advanced
  rw [List.Perm.mem_iff (List.perm_insertionSort _ _)]
  simp only [List.mem_flatMap, List.mem_filterMap, Option.map_eq_some']

lemma fracLe_total (a b : Frac) : fracLe a b = true ∨ fracLe b a = true := by
  unfold fracLe
  simp only [decide_eq_true_eq]
  omega

lemma fracLe_trans_mid {a b c : Frac} (hb : 0 < b.den) (h1 : fracLe a b = true)
    (h2 : fracLe b c = true) : fracLe a c = true := by
  unfold fracLe at h1 h2 ⊢
  simp only [decide_eq_true_eq] at h1 h2 ⊢
  have h3 : a.num * b.den * c.den ≤ b.num * a.den * c.den := Nat.mul_le_mul_right _ h1
  have h4 : b.num * c.den * a.den ≤ c.num * b.den * a.den := Nat.mul_le_mul_right _ h2
  have h5 : a.num * c.den * b.den ≤ c.num * a.den * b.den := by nlinarith
  exact Nat.le_of_mul_le_mul_right h5 hb

lemma fracLe_val {a b : Frac} (ha : 0 < a.den) (hb : 0 < b.den) :
    fracLe a b = true ↔ fracVal a ≤ fracVal b := by
  unfold fracLe fracVal
  simp only [decide_eq_true_eq]
  rw [div_le_div_iff₀ (by exact_mod_cast ha) (by exact_mod_cast hb)]
  constructor
  · intro h
    exact_mod_cast h
  · intro h
    exact_mod_cast h

lemma sorted_orderedInsert_cands (a : Cand) (l : List Cand) (hl : ∀ c ∈ l, 0 < c.conf.den)
    (hs : l.Sorted candGE) : (l.orderedInsert candGE a).Sorted candGE := by
  induction l with
  | nil => simp [List.orderedInsert]
  | cons b bs ih =>
    by_cases hab : candGE a b
    · rw [List.orderedInsert, if_pos hab, List.sorted_cons]
      refine ⟨?_, hs⟩
      intro x hx
      rcases List.mem_cons.mp hx with rfl | hx2
      · exact hab
      · have hbx : candGE b x := (List.sorted_cons.mp hs).1 x hx2
        exact fracLe_trans_mid (hl b (List.mem_cons_self b bs)) hbx hab
    · rw [List.orderedInsert, if_neg hab, List.sorted_cons]
      obtain ⟨hbAll, hbs⟩ := List.sorted_cons.mp hs
      refine ⟨?_, ih (fun c hc => hl c (List.mem_cons_of_mem b hc)) hbs⟩
      intro x hx
      rcases List.mem_cons.mp ((List.perm_orderedInsert candGE a bs).mem_iff.mp hx)
        with hxa | hx2
      · rw [hxa]
        rcases fracLe_total a.conf b.conf with h | h
        · exact h
        · exact absurd h hab
      · exact hbAll x hx2

lemma sorted_insertionSort_cands (l : List Cand) (hl : ∀ c ∈ l, 0 < c.conf.den) :
    (l.insertionSort candGE).Sorted candGE := by
  induction l with
  | nil => simp
  | cons a as ih =>
    rw [List.insertionSort]
    apply sorted_orderedInsert_cands
    · intro c hc
      exact hl c (List.mem_cons_of_mem a
        ((List.Perm.mem_iff (List.perm_insertionSort _ _)).mp hc))
    · exact ih (fun c hc => hl c (List.mem_cons_of_mem a hc))

lemma detect_den_pos {images : List ImgData}
    (hpos : ∀ img ∈ images, 0 < img.height * img.width) :
    ∀ c ∈ detect_faces_advanced images, 0 < c.conf.den := by
  intro c hc
  obtain ⟨img, himg, ed, hed, d, hd, r, hr, hc2⟩ := mem_detect_faces_advanced.mp hc
  rw [← hc2]
  exact candConf_den_pos img ed.1 d (hpos img himg)

/-- C8: every candidate's confidence is the area ratio times the method
bonus (1.2 / 1.1 / 1.0) times the original-variant bonus (1.1 / 1.0),
and the returned list is sorted in non-increasing confidence order. -/
theorem claim_C8 :
    (∀ (images : List ImgData) (c : Cand), c ∈ detect_faces_advanced images →
      0 < c.imgH * c.imgW →
      fracVal c.conf = ((c.det.w * c.det.h : Nat) : ℚ) / ((c.imgH * c.imgW : Nat) : ℚ) *
        methodBonus c.det.method * variantBonus c.enhIdx) ∧
    (∀ images : List ImgData, (∀ img ∈ images, 0 < img.height * img.width) →
      ((detect_faces_advanced images).map (fun c => fracVal c.conf)).Sorted (· ≥ ·)) := by
  constructor
  · intro images c hc hpos
    obtain ⟨img, himg, ed, hed, d, hd, r, hr, hc2⟩ := mem_detect_faces_advanced.mp hc
    subst hc2
    exact fracVal_candConf img ed.1 d hpos
  · intro images hpos
    have hden := detect_den_pos hpos
    have hs : (detect_faces_advanced images).Sorted candGE := by
      unfold detect_faces_advanced
      apply sorted_insertionSort_cands
      intro c hc
      have : c ∈ detect_faces_advanced images := by
        unfold detect_faces_advanced
        rw [List.Perm.mem_iff (List.perm_insertionSort _ _)]
        exact hc
      exact hden c this
    rw [List.Sorted, List.pairwise_map]
    refine List.Pairwise.imp_of_mem ?_ hs
    intro a b ha hb hab
    have := (fracLe_val (hden b hb) (hden a ha)).mp hab
    simpa using this

/-- C8 witness: three regions scored 0.8, 0.5, 0.9 come back ordered
0.9, 0.8, 0.5, and the head candidate carries the spec's formula. -/
theorem claim_C8_witness :
    (detect_faces_advanced [imgC8]).map (fun c => (c.conf.num, c.conf.den)) =
      [(90, 100), (80, 100), (50, 100)] ∧
    candC8 ∈ detect_faces_advanced [imgC8] ∧
    fracVal candC8.conf = ((candC8.det.w * candC8.det.h : Nat) : ℚ) /
      ((candC8.imgH * candC8.imgW : Nat) : ℚ) * methodBonus candC8.det.method *
      variantBonus candC8.enhIdx ∧
    ((detect_faces_advanced [imgC8]).map (fun c => fracVal c.conf)).Sorted (· ≥ ·) :=
  ⟨by decide, by decide, claim_C8.1 [imgC8] candC8 (by decide) (by decide),
   claim_C8.2 [imgC8] (by decide)⟩

/-! ### Claim C4: welfare-number exclusion and the fallback acceptance rule -/

lemma acceptClean_spec {nis : List Str} {m c : Str} (h : acceptClean nis m = some c) :
    c = clean_cpf m ∧ c.length = 11 ∧ nis.contains c = false ∧ validate_cpf c = true := by
  unfold acceptClean at h
  split at h
  · rename_i hcond
    simp only [Bool.and_eq_true, Bool.not_eq_true', decide_eq_true_eq] at hcond
    simp only [Option.some.injEq] at h
    subst h
    exact ⟨rfl, hcond.1.1, hcond.1.2, hcond.2⟩
  · exact absurd h (by simp)

lemma filterMap_accept_ok {nis : List Str} {ms : List Str} :
    ∀ c ∈ ms.filterMap (acceptClean nis),
      nis.contains c = false ∧ validate_cpf c = true ∧ clean_cpf c = c := by
  intro c hc
  obtain ⟨m, _, hm⟩ := List.mem_filterMap.mp hc
  obtain ⟨hcm, _, hnis, hval⟩ := acceptClean_spec hm
  exact ⟨hnis, hval, by rw [hcm]; exact clean_cpf_idem m⟩

lemma mem_drop_one_append {c x : Str} {acc : List Str}
    (h : c ∈ (acc ++ [x]).drop 1) : c ∈ acc.drop 1 ∨ c = x := by
  cases acc with
  | nil => simp at h
  | cons a as =>
    simp only [List.cons_append, List.drop_succ_cons, List.drop_zero] at h
    rcases List.mem_append.mp h with h2 | h2
    · exact Or.inl (by simpa using h2)
    · exact Or.inr (by simpa using h2)

/-- The two invariants of the fallback fold: every accepted candidate is
outside the exclusion set, validated, 11 digits, cleaned, and without
welfare context; every accepted candidate other than the first also has
tax-id context. -/
lemma fallback_fold_invariant (text : Str) (nis : List Str) (ms : List Str)
    (acc : List Str)
    (hbase : ∀ c ∈ acc, nis.contains c = false ∧ validate_cpf c = true ∧
      c.length = 11 ∧ ∃ m, c = clean_cpf m ∧ hasNisCtx text m = false)
    (hctx : ∀ c ∈ acc.drop 1, ∃ m, c = clean_cpf m ∧
      hasCpfCtx text m = true ∧ hasNisCtx text m = false) :
    (∀ c ∈ ms.foldl (fallbackStep text nis) acc, nis.contains c = false ∧
      validate_cpf c = true ∧ c.length = 11 ∧
      ∃ m, c = clean_cpf m ∧ hasNisCtx text m = false) ∧
    (∀ c ∈ (ms.foldl (fallbackStep text nis) acc).drop 1, ∃ m, c = clean_cpf m ∧
      hasCpfCtx text m = true ∧ hasNisCtx text m = false) := by
  induction ms generalizing acc with
  | nil => exact ⟨hbase, hctx⟩
  | cons m ms ih =>
    rw [List.foldl_cons]
    apply ih
    · -- base invariant after one step
      intro c hc
      unfold fallbackStep at hc
      split at hc
      case isFalse => exact hbase c hc
      split at hc
      case isFalse => exact hbase c hc
      split at hc
      case isFalse => exact hbase c hc
      rename_i hlen hnis hval
      split at hc
      case h_2 => exact hbase c hc
      split at hc
      · rename_i hcond
        simp only [Bool.and_eq_true, Bool.not_eq_true'] at hcond
        rcases List.mem_append.mp hc with h2 | h2
        · exact hbase c h2
        · have hcm : c = clean_cpf m := by simpa using h2
          simp only [Bool.not_eq_true', decide_eq_true_eq] at hlen hnis hval
          subst hcm
          exact ⟨hnis, hval, hlen, m, rfl, hcond.2⟩
      · split at hc
        · rename_i hcond2
          simp only [Bool.and_eq_true, Bool.not_eq_true', decide_eq_true_eq] at hcond2
          rcases List.mem_append.mp hc with h2 | h2
          · exact hbase c h2
          · have hcm : c = clean_cpf m := by simpa using h2
            simp only [Bool.not_eq_true', decide_eq_true_eq] at hlen hnis hval
            subst hcm
            exact ⟨hnis, hval, hlen, m, rfl, hcond2.1⟩
        · exact hbase c hc
    · -- context invariant after one step
      intro c hc
      unfold fallbackStep at hc
      split at hc
      case isFalse => exact hctx c hc
      split at hc
      case isFalse => exact hctx c hc
      split at hc
      case isFalse => exact hctx c hc
      split at hc
      case h_2 => exact hctx c hc
      split at hc
      · rename_i hcond
        simp only [Bool.and_eq_true, Bool.not_eq_true'] at hcond
        rcases mem_drop_one_append hc with h2 | h2
        · exact hctx c h2
        · exact ⟨m, h2, hcond.1, hcond.2⟩
      · split at hc
        · rename_i hcond2
          simp only [Bool.and_eq_true, Bool.not_eq_true', decide_eq_true_eq] at hcond2
          rcases mem_drop_one_append hc with h2 | h2
          · exact hctx c h2
          · -- the last-resort branch only fires on an empty accumulator
            rw [hcond2.2] at hc
            simp at hc
        · exact hctx c hc

lemma cpfCandidates_ok (text : Str) : ∀ c ∈ cpfCandidates text,
    (nisNumbers text).contains c = false ∧ validate_cpf c = true ∧ clean_cpf c = c := by
  intro c hc
  unfold cpfCandidates at hc
  split at hc
  · exact filterMap_accept_ok c hc
  · split at hc
    · exact filterMap_accept_ok c hc
    · have hinv := fallback_fold_invariant text (nisNumbers text)
        (genericMatches text) [] (by simp) (by simp)
      obtain ⟨hnis, hval, _, m, hcm, _⟩ := hinv.1 c hc
      exact ⟨hnis, hval, by rw [hcm]; exact clean_cpf_idem m⟩

/-- C4 (amended): the extractor never returns a number captured by a
welfare-labelled pattern as tax id; in the fallback pass every accepted
candidate is outside the exclusion set, checksum-valid, 11 digits and
free of welfare context, and every accepted candidate other than the
first also carries tax-id context (a neither-context candidate is
accepted only while no candidate has been found yet in the scan). -/
theorem claim_C4 : ∀ text : Str,
    (extract_cpf_from_text text ≠ [] →
      (nisNumbers text).contains (clean_cpf (extract_cpf_from_text text)) = false) ∧
    (∀ c ∈ fallbackCands text (nisNumbers text),
      (nisNumbers text).contains c = false ∧ validate_cpf c = true ∧ c.length = 11 ∧
      ∃ m, c = clean_cpf m ∧ hasNisCtx text m = false) ∧
    (∀ c ∈ (fallbackCands text (nisNumbers text)).drop 1,
      ∃ m, c = clean_cpf m ∧ hasCpfCtx text m = true ∧ hasNisCtx text m = false) := by
  intro text
  have hinv := fallback_fold_invariant text (nisNumbers text) (genericMatches text) []
    (by simp) (by simp)
  refine ⟨?_, hinv.1, hinv.2⟩
  intro hne
  cases hc : cpfCandidates text with
  | nil =>
    exfalso
    apply hne
    unfold extract_cpf_from_text
    rw [hc]
  | cons c rest =>
    obtain ⟨hnis, _, hclean⟩ := cpfCandidates_ok text c
      (by rw [hc]; exact List.mem_cons_self c rest)
    have he : extract_cpf_from_text text = formatCpf c := by
      unfold extract_cpf_from_text
      rw [hc]
    rw [he, clean_cpf_formatCpf, hclean]
    exact hnis

/-- C4 counterexample: in `textC4` the candidate `11144477735` has
neither tax-id nor welfare context and is accepted as last resort even
though another acceptable candidate (`52998224725`, with tax-id
context) exists later in the text, and the extractor returns the
context-free one — the claim allows last-resort acceptance only when no
other candidate exists. -/
theorem claim_C4_cex :
    fallbackCands textC4 (nisNumbers textC4) =
      ["11144477735".toList, "52998224725".toList, "52998224725".toList] ∧
    hasCpfCtx textC4 "11144477735".toList = false ∧
    hasNisCtx textC4 "11144477735".toList = false ∧
    hasCpfCtx textC4 "52998224725".toList = true ∧
    extract_cpf_from_text textC4 = "111.444.777-35".toList := by
  refine ⟨by decide, by decide, by decide, by decide, by decide⟩

/-- C4 witness: a returned tax id is never in the welfare exclusion set,
and a fallback candidate carries the invariant properties. -/
theorem claim_C4_witness :
    (nisNumbers textC4w).contains (clean_cpf (extract_cpf_from_text textC4w)) = false ∧
    ((nisNumbers textC4w).contains "52998224725".toList = false ∧
      validate_cpf "52998224725".toList = true ∧ ("52998224725".toList).length = 11 ∧
      ∃ m, "52998224725".toList = clean_cpf m ∧ hasNisCtx textC4w m = false) :=
  ⟨(claim_C4 textC4w).1 (by decide),
   (claim_C4 textC4w).2.1 "52998224725".toList (by decide)⟩
